import Mathlib

/-!
Verification of the edge-event monitoring examples from the libgpiod
example repository (`input_events.cpp`, `input_simple.cpp`,
`output1_simple.cpp`, and `output_simple.cpp`, the two-bit counter built
alongside them).

The monitoring loop of `input_events.cpp` is embedded as a function over an
explicit trace of environment responses (the value of the `quitting` flag at
each loop-head test, the result of each blocking wait, and the events the
kernel has pending at each successful wait).  The output of the program is
modelled as a list of `Action`s (printed event records, batch separators,
and the teardown calls `gpiod_line_request_release` / `gpiod_chip_close`)
together with an exit status (`return 0` or an `assert` abort).

The wait/read calls themselves live in libgpiod, an external collaborator;
their result classification and the bounded destructive batch read are
modelled at the interface boundary: a wait returns ready (1), timeout (0),
or -1 with errno either EINTR or some other error, and a read fills the
buffer from index 0 with at most `max_events` pending events.
-/

namespace GpiodExamples

/-- `2^64`, the modulus of `uint64_t` arithmetic. -/
def U64 : Nat := 2 ^ 64

/-- Wrapping `uint64_t` subtraction `a - b` for values `a b < U64`
(the semantics of `timestamp_ns - last_ns` in `input_events.cpp:175`). -/
def sub64 (a b : Nat) : Nat := (a + (U64 - b % U64)) % U64

/-- `max_events` from `input_events.cpp:18`: capacity of the edge event
buffer. -/
def max_events : Nat := 32

/-- One `gpiod_edge_event`, as observed through the accessors used in
`input_events.cpp:166-171`.  `rising` is true when the event type is
`GPIOD_EDGE_EVENT_RISING_EDGE`; `timestamp_ns` is a `uint64_t` value. -/
structure EdgeEvent where
  global_seqno : Nat
  line_seqno : Nat
  line_offset : Nat
  rising : Bool
  timestamp_ns : Nat
deriving Repr, DecidableEq

/-- The fixed part of an event record, from the printf at
`input_events.cpp:172-173`:
`"%lu:%lu pin %u = %u @ %PRIu64"` with the level resolved to 1 for a
rising edge and 0 for a falling edge. -/
def baseLine (e : EdgeEvent) : String :=
  toString e.global_seqno ++ ":" ++ toString e.line_seqno ++ " pin " ++
    toString e.line_offset ++ " = " ++ (if e.rising then "1" else "0") ++
    " @ " ++ toString e.timestamp_ns

/-- The optional delta part of an event record, from
`input_events.cpp:174-175`: printed only when `last_ns != 0`, with
value `timestamp_ns - last_ns` in wrapping `uint64_t` arithmetic. -/
def deltaSuffix (last_ns : Nat) (e : EdgeEvent) : String :=
  if last_ns ≠ 0 then " +" ++ toString (sub64 e.timestamp_ns last_ns) else ""

/-- One full event record line as printed by the loop body at
`input_events.cpp:172-177`. -/
def eventLine (last_ns : Nat) (e : EdgeEvent) : String :=
  baseLine e ++ deltaSuffix last_ns e

/-- The per-batch reporting loop of `input_events.cpp:163-178`: prints one
line per event in batch order, threading `last_ns` (which is set to the
current event's timestamp after each event).  Returns the printed lines and
the final value of `last_ns`. -/
def reportBatch (last_ns : Nat) : List EdgeEvent → List String × Nat
  | [] => ([], last_ns)
  | e :: es =>
    let r := reportBatch e.timestamp_ns es
    (eventLine last_ns e :: r.1, r.2)

/-- The value `last_ns` holds when the event at index `i` of a batch is
about to be printed, given that `last_ns` was `last_ns₀` when the batch
started: the timestamp of the immediately preceding reported event, or the
initial value for index 0. -/
def prevTs (last_ns : Nat) (evs : List EdgeEvent) : Nat → Nat
  | 0 => last_ns
  | i + 1 =>
    match evs.get? i with
    | some e => e.timestamp_ns
    | none => 0

/-- Outcome of `gpiod_line_request_wait_edge_events(request, -1)` as
classified by `input_events.cpp:151-154`: return 1 (event ready), return 0
(timeout), or return -1 with `errno == EINTR` (interrupted by the signal)
or with any other `errno` (failure). -/
inductive WaitResult
  | ready
  | timedOut
  | eintr
  | failed
deriving Repr, DecidableEq

/-- Environment responses for one iteration of the monitoring loop of
`input_events.cpp:145-182`: the value of the `quitting` flag when the
`while` condition is tested, the result of the blocking wait, and the
events the kernel has pending when the wait returns ready. -/
structure LoopTick where
  quitting : Bool
  wait : WaitResult
  pending : List EdgeEvent
deriving Repr, DecidableEq

/-- Observable actions of `input_events.cpp`: a printed event record, the
blank separator line after a batch (`input_events.cpp:180`), the release of
the line request (`input_events.cpp:184`) and the closing of the chip
(`input_events.cpp:187`). -/
inductive Action
  | line (s : String)
  | sep
  | release
  | closeChip
deriving Repr, DecidableEq

/-- How the process ends: `return n` from `main`, or an `assert` failure
(which calls `abort` and terminates the process immediately). -/
inductive ExitStatus
  | code (n : Nat)
  | aborted
deriving Repr, DecidableEq

/-- `gpiod_line_request_read_edge_events(request, events, cap)` at the
interface boundary (spec 4.4): a destructive batch read that fills the
buffer from index 0 with at most `cap` of the pending events. -/
def readEdgeEvents (pending : List EdgeEvent) (cap : Nat) : List EdgeEvent :=
  pending.take cap

/-- The monitoring loop and teardown of `input_events.cpp:145-190`, run
against a trace of environment responses.  When the trace is exhausted the
session ends as on a loop exit (teardown then `return 0`).  Per iteration:
if `quitting` is set the loop exits to teardown; otherwise the wait result
is classified as in lines 151-154 (`EINTR` breaks to teardown, anything
other than 1 fails `assert(r2 == 1)` and aborts); on ready, the batch is
read and `assert(num_events > 0)` aborts on an empty (or failed) read,
else the batch is reported followed by the blank separator line. -/
def runLoop (last_ns : Nat) : List LoopTick → List Action × ExitStatus
  | [] => ([.release, .closeChip], .code 0)
  | t :: ts =>
    if t.quitting then ([.release, .closeChip], .code 0)
    else
      match t.wait with
      | .eintr => ([.release, .closeChip], .code 0)
      | .ready =>
        let evs := readEdgeEvents t.pending max_events
        if 0 < evs.length then
          let r := reportBatch last_ns evs
          let rest := runLoop r.2 ts
          (r.1.map Action.line ++ Action.sep :: rest.1, rest.2)
        else ([], .aborted)
      | .timedOut => ([], .aborted)
      | .failed => ([], .aborted)

/-- An action that the (non-teardown) loop body can emit: a printed record
or a batch separator. -/
def isReport : Action → Bool
  | .line _ => true
  | .sep => true
  | _ => false

/-- The startup sequence of `main` in `input_events.cpp:30-145`, in source
order: buffer/settings/configuration building, chip open, line request,
the frees, the debounce printf, `last_ns = 0`, `signal(SIGINT, ...)`, and
finally entry into the monitoring loop. -/
inductive StartupStep
  | newEventBuffer
  | newSettings
  | setDirection
  | setEdgeDetection
  | setBias
  | setDebounce
  | setEventClock
  | newLineConfig
  | addLineSettings
  | freeSettings
  | openChip
  | newRequestConfig
  | setConsumer
  | requestLines
  | freeRequestConfig
  | freeLineConfig
  | printDebounce
  | initLastNs
  | installSigHandler
  | enterLoop
deriving Repr, DecidableEq

/-- The startup steps of `input_events.cpp` in the order they execute. -/
def inputEventsStartup : List StartupStep :=
  [.newEventBuffer, .newSettings, .setDirection, .setEdgeDetection, .setBias,
   .setDebounce, .setEventClock, .newLineConfig, .addLineSettings,
   .freeSettings, .openChip, .newRequestConfig, .setConsumer, .requestLines,
   .freeRequestConfig, .freeLineConfig, .printDebounce, .initLastNs,
   .installSigHandler, .enterLoop]

/-- The `quitting` flag observed after the first `i` startup steps have
executed, when a SIGINT is delivered at that point: `ctrl_c_handler`
(`input_events.cpp:24-27`) is the only writer of the flag, and it can run
only once `signal(SIGINT, ctrl_c_handler)` has executed; before that the
signal has its default disposition and the flag (initialised false at
`input_events.cpp:22`) is untouched. -/
def quittingAfterSigAt (i : Nat) : Bool :=
  (inputEventsStartup.take i).contains .installSigHandler

/-- Observable actions of `output1_simple.cpp`: chip open, line request,
chip close, a line-value write, request release. -/
inductive OutAction
  | openChip
  | requestLines
  | closeChip
  | setValue (v : Bool)
  | release
deriving Repr, DecidableEq

/-- The toggle loop of `output1_simple.cpp:128-138` run for `n` iterations:
each iteration writes `code_values[code]` (`code = 0` maps to inactive,
i.e. `false`) and then flips `code`. -/
def output1Toggle : Nat → Bool → List OutAction
  | 0, _ => []
  | n + 1, code => OutAction.setValue code :: output1Toggle n (!code)

/-- The action trace of `main` in `output1_simple.cpp` when the toggle
loop runs `n` iterations: open the chip (line 80), request the lines
(line 101), close the chip (line 116, before the loop), toggle for `n`
iterations starting with `code = 0`, set the output low (line 141), and
release the request (line 145); `main` then returns 0. -/
def output1Main (n : Nat) : List OutAction :=
  [.openChip, .requestLines, .closeChip] ++ output1Toggle n false ++
    [.setValue false, .release]

/-- Observable actions of `input_simple.cpp`: a printed pin-change record,
the request release (line 156) and the chip close (line 159). -/
inductive SimpleAction
  | print (pin : Nat) (v : Bool)
  | release
  | closeChip
deriving Repr, DecidableEq

/-- The input offsets of `input_simple.cpp` (`offsets[] = {23, 24}`). -/
def simpleOffsets : List Nat := [23, 24]

/-- The change-printing loop body of `input_simple.cpp:144-150`: for each
pin, if the old and new values differ, print the new value (1 for active,
0 for inactive) and record it. -/
def printChanges : List Nat → List Bool → List Bool → List SimpleAction
  | p :: ps, o :: os, n :: ns =>
    (if o ≠ n then [SimpleAction.print p n] else []) ++ printChanges ps os ns
  | _, _, _ => []

/-- Environment responses for one iteration of the polling loop of
`input_simple.cpp:138-154`: the `quitting` flag at the loop-head test,
whether `gpiod_line_request_get_values` succeeded (it is asserted to
return 0), and the values it read. -/
structure PollTick where
  quitting : Bool
  readOk : Bool
  values : List Bool
deriving Repr, DecidableEq

/-- The polling loop and teardown of `input_simple.cpp:138-162`: on each
iteration, exit to teardown if `quitting` is set; otherwise read the
values (`assert(r3 == 0)` aborts on failure), print the changes against
the previously seen values, and continue with the new values as the seen
ones (each changed entry is overwritten, unchanged entries are already
equal).  Teardown releases the request then closes the chip and `main`
returns 0. -/
def inputSimpleLoop (old : List Bool) :
    List PollTick → List SimpleAction × ExitStatus
  | [] => ([.release, .closeChip], .code 0)
  | t :: ts =>
    if t.quitting then ([.release, .closeChip], .code 0)
    else if t.readOk then
      let rest := inputSimpleLoop t.values ts
      (printChanges simpleOffsets old t.values ++ rest.1, rest.2)
    else ([], .aborted)

/-- An action that the polling loop body of `input_simple.cpp` can emit. -/
def isSimpleReport : SimpleAction → Bool
  | .print _ _ => true
  | _ => false

/-- Observable actions of `output_simple.cpp` (the two-bit counter): chip
open, line request, a two-line value write (lsb, msb), request release,
chip close. -/
inductive Out2Action
  | openChip
  | requestLines
  | setValues (lsb msb : Bool)
  | release
  | closeChip
deriving Repr, DecidableEq

/-- The `code_values` table of `output_simple.cpp`: the (lsb, msb)
line values for each counter code 0..3, active encoded as `true`. -/
def code_values : List (Bool × Bool) :=
  [(false, false), (true, false), (false, true), (true, true)]

/-- The counter loop of `output_simple.cpp` run for `n` iterations: each
iteration writes `code_values[code]` and then increments `code`, wrapping
to 0 when it reaches `code_max = 4` (so `code` always stays in range; the
`getD` default is never consulted for the codes the program produces). -/
def outputSimpleToggle : Nat → Nat → List Out2Action
  | 0, _ => []
  | n + 1, code =>
    Out2Action.setValues (code_values.getD code (false, false)).1
        (code_values.getD code (false, false)).2 ::
      outputSimpleToggle n (if code + 1 ≥ 4 then 0 else code + 1)

/-- The action trace of `main` in `output_simple.cpp` when the counter
loop runs `n` iterations: open the chip (line 104), request the lines
(line 125; the early chip close is commented out at line 142), count for
`n` iterations starting at `code = 0`, set both outputs low
(`code_values[0]`, line 171), release the request (line 175) and close the
chip (line 178); `main` then returns 0. -/
def outputSimpleMain (n : Nat) : List Out2Action :=
  [.openChip, .requestLines] ++ outputSimpleToggle n 0 ++
    [.setValues false false, .release, .closeChip]

/-! ### Helper lemmas -/

theorem reportBatch_length (last_ns : Nat) (evs : List EdgeEvent) :
    (reportBatch last_ns evs).1.length = evs.length := by
  induction evs generalizing last_ns with
  | nil => rfl
  | cons e es ih => simp [reportBatch, ih]

theorem prevTs_cons (last_ns : Nat) (e : EdgeEvent) (es : List EdgeEvent)
    (i : Nat) :
    prevTs last_ns (e :: es) (i + 1) = prevTs e.timestamp_ns es i := by
  cases i with
  | zero => rfl
  | succ j => rfl

theorem reportBatch_get (last_ns : Nat) (evs : List EdgeEvent) (i : Nat)
    (e : EdgeEvent) (h : evs.get? i = some e) :
    (reportBatch last_ns evs).1.get? i =
      some (eventLine (prevTs last_ns evs i) e) := by
  induction evs generalizing last_ns i with
  | nil => simp at h
  | cons a es ih =>
    cases i with
    | zero =>
      simp at h
      subst h
      rfl
    | succ j =>
      have h' : es.get? j = some e := h
      rw [prevTs_cons]
      show (eventLine last_ns a :: (reportBatch a.timestamp_ns es).1).get? (j + 1) =
        some (eventLine (prevTs a.timestamp_ns es j) e)
      rw [List.get?_cons_succ]
      exact ih a.timestamp_ns j h'

theorem reportBatch_snd (last_ns : Nat) (evs : List EdgeEvent) :
    (reportBatch last_ns evs).2 = prevTs last_ns evs evs.length := by
  induction evs generalizing last_ns with
  | nil => rfl
  | cons e es ih =>
    show (reportBatch e.timestamp_ns es).2 = prevTs last_ns (e :: es) (es.length + 1)
    rw [prevTs_cons]
    exact ih e.timestamp_ns

theorem readEdgeEvents_length_le (pending : List EdgeEvent) (cap : Nat) :
    (readEdgeEvents pending cap).length ≤ cap := by
  simp only [readEdgeEvents, List.length_take]
  exact Nat.min_le_left _ _

theorem runLoop_shape (ticks : List LoopTick) (last_ns : Nat) :
    ((runLoop last_ns ticks).2 = .code 0 ∧
      ∃ pre, (runLoop last_ns ticks).1 = pre ++ [.release, .closeChip] ∧
        ∀ a ∈ pre, isReport a = true) ∨
    ((runLoop last_ns ticks).2 = .aborted ∧
      ∀ a ∈ (runLoop last_ns ticks).1, isReport a = true) := by
  induction ticks generalizing last_ns with
  | nil => exact Or.inl ⟨rfl, [], rfl, by simp⟩
  | cons t ts ih =>
    by_cases hq : t.quitting = true
    · exact Or.inl ⟨by simp [runLoop, hq], [], by simp [runLoop, hq], by simp⟩
    · cases hw : t.wait with
      | eintr =>
        exact Or.inl ⟨by simp [runLoop, hq, hw], [], by simp [runLoop, hq, hw],
          by simp⟩
      | timedOut =>
        exact Or.inr ⟨by simp [runLoop, hq, hw], by simp [runLoop, hq, hw]⟩
      | failed =>
        exact Or.inr ⟨by simp [runLoop, hq, hw], by simp [runLoop, hq, hw]⟩
      | ready =>
        by_cases hlen : 0 < (readEdgeEvents t.pending max_events).length
        · have heq : runLoop last_ns (t :: ts) =
              ((reportBatch last_ns (readEdgeEvents t.pending max_events)).1.map
                  Action.line ++ Action.sep ::
                  (runLoop (reportBatch last_ns
                    (readEdgeEvents t.pending max_events)).2 ts).1,
               (runLoop (reportBatch last_ns
                  (readEdgeEvents t.pending max_events)).2 ts).2) := by
            simp [runLoop, hq, hw, hlen]
          rcases ih (reportBatch last_ns (readEdgeEvents t.pending max_events)).2 with
            ⟨h2, pre, hpre, hrep⟩ | ⟨h2, hrep⟩
          · left
            rw [heq]
            refine ⟨h2, (reportBatch last_ns
              (readEdgeEvents t.pending max_events)).1.map Action.line ++
                Action.sep :: pre, ?_, ?_⟩
            · simp [hpre]
            · intro a ha
              simp only [List.mem_append, List.mem_cons, List.mem_map] at ha
              rcases ha with ⟨s, _, rfl⟩ | rfl | ha
              · rfl
              · rfl
              · exact hrep a ha
          · right
            rw [heq]
            refine ⟨h2, ?_⟩
            intro a ha
            simp only [List.mem_append, List.mem_cons, List.mem_map] at ha
            rcases ha with ⟨s, _, rfl⟩ | rfl | ha
            · rfl
            · rfl
            · exact hrep a ha
        · exact Or.inr ⟨by simp [runLoop, hq, hw, hlen],
            by simp [runLoop, hq, hw, hlen]⟩

theorem output1Toggle_setValue (n : Nat) (c : Bool) :
    ∀ a ∈ output1Toggle n c, ∃ v, a = OutAction.setValue v := by
  induction n generalizing c with
  | zero => intro a ha; simp [output1Toggle] at ha
  | succ m ih =>
    intro a ha
    simp only [output1Toggle, List.mem_cons] at ha
    rcases ha with rfl | ha
    · exact ⟨c, rfl⟩
    · exact ih (!c) a ha

theorem outputSimpleToggle_setValues (n : Nat) (c : Nat) :
    ∀ a ∈ outputSimpleToggle n c, ∃ v w, a = Out2Action.setValues v w := by
  induction n generalizing c with
  | zero => intro a ha; simp [outputSimpleToggle] at ha
  | succ m ih =>
    intro a ha
    simp only [outputSimpleToggle, List.mem_cons] at ha
    rcases ha with rfl | ha
    · exact ⟨_, _, rfl⟩
    · exact ih _ a ha

theorem printChanges_report (ps : List Nat) (os ns : List Bool) :
    ∀ a ∈ printChanges ps os ns, isSimpleReport a = true := by
  induction ps generalizing os ns with
  | nil => intro a ha; simp [printChanges] at ha
  | cons p ps ih =>
    intro a ha
    cases os with
    | nil => simp [printChanges] at ha
    | cons o os =>
      cases ns with
      | nil => simp [printChanges] at ha
      | cons v ns =>
        simp only [printChanges, List.mem_append] at ha
        rcases ha with ha | ha
        · by_cases h : o ≠ v
          · simp [h] at ha
            subst ha
            rfl
          · simp [h] at ha
        · exact ih os ns a ha

theorem inputSimpleLoop_shape (ticks : List PollTick) (old : List Bool) :
    ((inputSimpleLoop old ticks).2 = .code 0 ∧
      ∃ pre, (inputSimpleLoop old ticks).1 = pre ++ [.release, .closeChip] ∧
        ∀ a ∈ pre, isSimpleReport a = true) ∨
    ((inputSimpleLoop old ticks).2 = .aborted ∧
      ∀ a ∈ (inputSimpleLoop old ticks).1, isSimpleReport a = true) := by
  induction ticks generalizing old with
  | nil => exact Or.inl ⟨rfl, [], rfl, by simp⟩
  | cons t ts ih =>
    by_cases hq : t.quitting = true
    · exact Or.inl ⟨by simp [inputSimpleLoop, hq], [],
        by simp [inputSimpleLoop, hq], by simp⟩
    · by_cases hr : t.readOk = true
      · have heq : inputSimpleLoop old (t :: ts) =
            (printChanges simpleOffsets old t.values ++
              (inputSimpleLoop t.values ts).1, (inputSimpleLoop t.values ts).2) := by
          simp [inputSimpleLoop, hq, hr]
        rcases ih t.values with ⟨h2, pre, hpre, hrep⟩ | ⟨h2, hrep⟩
        · left
          rw [heq]
          refine ⟨h2, printChanges simpleOffsets old t.values ++ pre, ?_, ?_⟩
          · simp [hpre]
          · intro a ha
            rcases List.mem_append.mp ha with ha | ha
            · exact printChanges_report _ _ _ a ha
            · exact hrep a ha
        · right
          rw [heq]
          refine ⟨h2, ?_⟩
          intro a ha
          rcases List.mem_append.mp ha with ha | ha
          · exact printChanges_report _ _ _ a ha
          · exact hrep a ha
      · exact Or.inr ⟨by simp [inputSimpleLoop, hq, hr],
          by simp [inputSimpleLoop, hq, hr]⟩

/-! ### Claim theorems -/

/-- C1 counterexample: when the blocking wait fails (returns -1 with an
errno other than EINTR), `assert(r2 == 1)` at `input_events.cpp:154` aborts
the process immediately: the request is never released and the chip is
never closed, so the claim that no exit path skips teardown is false. -/
theorem C1_counterexample :
    (runLoop 0 [⟨false, .failed, []⟩]).2 = .aborted ∧
    Action.release ∉ (runLoop 0 [⟨false, .failed, []⟩]).1 ∧
    Action.closeChip ∉ (runLoop 0 [⟨false, .failed, []⟩]).1 := by
  decide

/-- C1 (amended): on every exit path that returns from `main` (normal
completion or interruption), the request is released and the chip closed,
exactly once each and as the final two actions; on a fatal wait/read error
the process aborts via a failed `assert` and performs no teardown at all. -/
theorem C1_teardown (last_ns : Nat) (ticks : List LoopTick) :
    ((runLoop last_ns ticks).2 = .code 0 →
      (runLoop last_ns ticks).1.count .release = 1 ∧
      (runLoop last_ns ticks).1.count .closeChip = 1 ∧
      ∃ pre, (runLoop last_ns ticks).1 = pre ++ [.release, .closeChip]) ∧
    ((runLoop last_ns ticks).2 = .aborted →
      Action.release ∉ (runLoop last_ns ticks).1 ∧
      Action.closeChip ∉ (runLoop last_ns ticks).1) := by
  rcases runLoop_shape ticks last_ns with ⟨h2, pre, hpre, hrep⟩ | ⟨h2, hrep⟩
  · constructor
    · intro _
      have hrel : Action.release ∉ pre := by
        intro hmem
        have h := hrep _ hmem
        simp [isReport] at h
      have hcl : Action.closeChip ∉ pre := by
        intro hmem
        have h := hrep _ hmem
        simp [isReport] at h
      refine ⟨?_, ?_, pre, hpre⟩
      · rw [hpre, List.count_append, List.count_eq_zero.mpr hrel]
        decide
      · rw [hpre, List.count_append, List.count_eq_zero.mpr hcl]
        decide
    · intro h
      exact absurd (h2.symm.trans h) (by simp)
  · constructor
    · intro h
      exact absurd (h2.symm.trans h) (by simp)
    · intro _
      constructor
      · intro hmem
        have h := hrep _ hmem
        simp [isReport] at h
      · intro hmem
        have h := hrep _ hmem
        simp [isReport] at h

/-- Witness for C1: a concrete normally-exiting trace has release and close
counted once each, and a concrete fatally-failing trace never releases. -/
theorem C1_teardown_witness :
    (runLoop 0 [⟨true, .ready, []⟩]).1.count .release = 1 ∧
    Action.release ∉ (runLoop 5 [⟨false, .failed, []⟩]).1 :=
  ⟨((C1_teardown 0 [⟨true, .ready, []⟩]).1 (by decide)).1,
   ((C1_teardown 5 [⟨false, .failed, []⟩]).2 (by decide)).1⟩

/-- C2 counterexample: in a batch whose first event has `timestamp_ns = 0`,
the second event ever reported carries no delta (the printed line is the
bare record, not the record with ` +7` appended), because the code's
`last_ns != 0` test conflates a stored timestamp of 0 with the unset
state.  This falsifies "delta omission happens exactly once, on the first
event". -/
theorem C2_counterexample :
    (reportBatch 0 [⟨1, 1, 23, true, 0⟩, ⟨2, 1, 24, false, 7⟩]).1 =
      ["1:1 pin 23 = 1 @ 0", "2:1 pin 24 = 0 @ 7"] ∧
    "2:1 pin 24 = 0 @ 7" ≠ "2:1 pin 24 = 0 @ 7 +7" := by
  constructor
  · rfl
  · decide

/-- C2 (amended): each reported event's line is its base record followed by
a delta exactly when the stored previous timestamp (`last_ns`, the
timestamp of the immediately preceding reported event, or the session's
initial 0) is nonzero, in which case the delta is the wrapping 64-bit
difference of the two timestamps; the state threaded to the next batch is
the last event's timestamp, so deltas continue across batch boundaries. -/
theorem C2_delta (last_ns : Nat) (evs : List EdgeEvent) (i : Nat)
    (e : EdgeEvent) (h : evs.get? i = some e) :
    (reportBatch last_ns evs).1.get? i =
      some (baseLine e ++
        (if prevTs last_ns evs i = 0 then ""
         else " +" ++ toString (sub64 e.timestamp_ns (prevTs last_ns evs i)))) ∧
    (reportBatch last_ns evs).2 = prevTs last_ns evs evs.length := by
  refine ⟨?_, reportBatch_snd last_ns evs⟩
  rw [reportBatch_get last_ns evs i e h]
  unfold eventLine deltaSuffix
  by_cases h0 : prevTs last_ns evs i = 0
  · simp [h0]
  · simp [h0]

/-- Witness for C2: a two-event batch starting from the initial state
yields `+500` on the second event. -/
theorem C2_delta_witness :
    (reportBatch 0 [⟨1, 1, 23, true, 1000⟩, ⟨2, 1, 24, false, 1500⟩]).1.get? 1 =
      some "2:1 pin 24 = 0 @ 1500 +500" := by
  have h := (C2_delta 0 [⟨1, 1, 23, true, 1000⟩, ⟨2, 1, 24, false, 1500⟩] 1
    ⟨2, 1, 24, false, 1500⟩ (by decide)).1
  rw [h]
  decide

/-- C8: the unset previous-timestamp state is represented by the value 0,
so the delta is omitted (the line is the bare record) for any event whose
stored previous timestamp is 0 — also when that event is not the first
event ever reported. -/
theorem C8_zero_prev_omits_delta (last_ns : Nat) (evs : List EdgeEvent)
    (i : Nat) (e : EdgeEvent) (h : evs.get? i = some e)
    (h0 : prevTs last_ns evs i = 0) :
    (reportBatch last_ns evs).1.get? i = some (baseLine e) := by
  rw [reportBatch_get last_ns evs i e h, h0]
  simp [eventLine, deltaSuffix]

/-- Witness for C8: the second event of a session (not the first) whose
predecessor carried timestamp 0 is printed without a delta even though the
annotator had already reported an event. -/
theorem C8_witness :
    (reportBatch 0 [⟨1, 1, 23, true, 0⟩, ⟨2, 1, 24, false, 9⟩]).1.get? 1 =
      some (baseLine ⟨2, 1, 24, false, 9⟩) :=
  C8_zero_prev_omits_delta 0 [⟨1, 1, 23, true, 0⟩, ⟨2, 1, 24, false, 9⟩] 1
    ⟨2, 1, 24, false, 9⟩ (by decide) (by decide)

/-- C9: the delta is computed by wrapping unsigned 64-bit subtraction: when
an event's timestamp is smaller than the stored previous timestamp, the
printed delta is the (strictly positive) wraparound value
`timestamp_ns + 2^64 - last_ns`, i.e. the difference modulo `2^64`, never
a negative number. -/
theorem C9_wraparound (last_ns : Nat) (e : EdgeEvent)
    (hlt : e.timestamp_ns < last_ns) (hu : last_ns < U64) :
    deltaSuffix last_ns e =
      " +" ++ toString (e.timestamp_ns + (U64 - last_ns)) ∧
    (sub64 e.timestamp_ns last_ns : Int) =
      ((e.timestamp_ns : Int) - (last_ns : Int)) % ((U64 : Nat) : Int) ∧
    0 < sub64 e.timestamp_ns last_ns := by
  have hne : last_ns ≠ 0 := by omega
  have hmod : last_ns % U64 = last_ns := Nat.mod_eq_of_lt hu
  have hval : sub64 e.timestamp_ns last_ns =
      e.timestamp_ns + (U64 - last_ns) := by
    unfold sub64
    rw [hmod]
    apply Nat.mod_eq_of_lt
    omega
  refine ⟨by simp [deltaSuffix, hne, hval], ?_, by rw [hval]; omega⟩
  rw [hval]
  have ht : (0 : Int) ≤ (e.timestamp_ns : Int) := Int.ofNat_nonneg _
  have htl : (e.timestamp_ns : Int) < (last_ns : Int) := by exact_mod_cast hlt
  have hl : (last_ns : Int) < ((U64 : Nat) : Int) := by exact_mod_cast hu
  have hcast : ((e.timestamp_ns + (U64 - last_ns) : Nat) : Int) =
      (e.timestamp_ns : Int) - (last_ns : Int) + ((U64 : Nat) : Int) := by
    have hle : last_ns ≤ U64 := Nat.le_of_lt hu
    push_cast [hle]
    ring
  rw [hcast]
  rw [show ((e.timestamp_ns : Int) - (last_ns : Int)) % ((U64 : Nat) : Int) =
      ((e.timestamp_ns : Int) - (last_ns : Int) + ((U64 : Nat) : Int)) %
        ((U64 : Nat) : Int) from Int.add_emod_self.symm]
  rw [Int.emod_eq_of_lt (by omega) (by omega)]

/-- Witness for C9: an event at timestamp 3 following a stored timestamp of
5 prints the wraparound delta `2^64 - 2`. -/
theorem C9_witness :
    deltaSuffix 5 ⟨2, 1, 23, true, 3⟩ =
      " +" ++ toString (3 + (U64 - 5)) :=
  (C9_wraparound 5 ⟨2, 1, 23, true, 3⟩ (by decide) (by norm_num [U64])).1

/-- C3: processing a freshly read batch emits exactly one record per event,
in batch order — the record at index `i` being the embedded printf line
(global_seqno:line_seqno, pin offset, level 1 for rising / 0 for falling,
timestamp, optional delta) for the `i`-th event — followed by exactly one
batch separator (blank line) after the last event. -/
theorem C3_batch_report (last_ns : Nat) (evs : List EdgeEvent)
    (ts : List LoopTick) (hne : evs ≠ []) (hcap : evs.length ≤ max_events) :
    runLoop last_ns (⟨false, .ready, evs⟩ :: ts) =
      ((reportBatch last_ns evs).1.map Action.line ++
        Action.sep :: (runLoop (reportBatch last_ns evs).2 ts).1,
       (runLoop (reportBatch last_ns evs).2 ts).2) ∧
    (reportBatch last_ns evs).1.length = evs.length ∧
    ∀ i e, evs.get? i = some e →
      (reportBatch last_ns evs).1.get? i =
        some (eventLine (prevTs last_ns evs i) e) := by
  have hread : readEdgeEvents evs max_events = evs :=
    List.take_of_length_le hcap
  have hlen : 0 < evs.length := List.length_pos.mpr hne
  refine ⟨?_, reportBatch_length last_ns evs,
    fun i e h => reportBatch_get last_ns evs i e h⟩
  simp [runLoop, hread, hlen]

/-- Witness for C3: a two-event batch produces its two records followed by
the separator, then teardown. -/
theorem C3_batch_report_witness :
    runLoop 0 [⟨false, .ready, [⟨1, 1, 23, true, 1000⟩, ⟨2, 1, 24, false, 1500⟩]⟩] =
      ((reportBatch 0 [⟨1, 1, 23, true, 1000⟩, ⟨2, 1, 24, false, 1500⟩]).1.map
          Action.line ++ Action.sep ::
          (runLoop (reportBatch 0
            [⟨1, 1, 23, true, 1000⟩, ⟨2, 1, 24, false, 1500⟩]).2 []).1,
       (runLoop (reportBatch 0
          [⟨1, 1, 23, true, 1000⟩, ⟨2, 1, 24, false, 1500⟩]).2 []).2) :=
  (C3_batch_report 0 [⟨1, 1, 23, true, 1000⟩, ⟨2, 1, 24, false, 1500⟩] []
    (by decide) (by decide)).1

/-- C4: when the blocking wait is interrupted by the cancellation signal
(returns -1 with errno EINTR), the loop breaks straight to teardown: no
error is reported, no abort occurs, no further event records are produced,
and the process exits with status 0. -/
theorem C4_interrupted_wait (last_ns : Nat) (t : LoopTick)
    (ts : List LoopTick) (hq : t.quitting = false) (hw : t.wait = .eintr) :
    runLoop last_ns (t :: ts) = ([.release, .closeChip], .code 0) := by
  simp [runLoop, hq, hw]

/-- Witness for C4: a concrete interrupted wait with events still pending
and further trace behind it produces only the teardown actions. -/
theorem C4_interrupted_wait_witness :
    runLoop 7 [⟨false, .eintr, [⟨1, 1, 23, true, 5⟩]⟩,
        ⟨false, .ready, [⟨1, 1, 23, true, 5⟩]⟩] =
      ([.release, .closeChip], .code 0) :=
  C4_interrupted_wait 7 ⟨false, .eintr, [⟨1, 1, 23, true, 5⟩]⟩
    [⟨false, .ready, [⟨1, 1, 23, true, 5⟩]⟩] rfl rfl

/-- C5 counterexample: `output1_simple.cpp` closes the chip at line 116,
immediately after requesting the lines and before the toggle loop, while
the request is still held; `release` only happens at line 145.  So it is
false that in every program release precedes closeChip. -/
theorem C5_counterexample :
    output1Main 0 =
      [.openChip, .requestLines, .closeChip, .setValue false, .release] ∧
    OutAction.closeChip ∈ (output1Main 0).take 3 ∧
    OutAction.release ∉ (output1Main 0).take 3 := by
  decide

/-- C5 (amended): in `input_events`, `input_simple` and `output_simple`,
on every exit path that returns from `main`, release precedes closeChip as
the final two actions, each executing exactly once and neither occurring
earlier; in `output1_simple` alone, closeChip executes exactly once,
immediately after the line request and before release (while the request
is still held), and release executes exactly once, last. -/
theorem C5_release_close_order (last_ns : Nat) (ticks : List LoopTick)
    (old : List Bool) (pticks : List PollTick) (n m : Nat) :
    ((runLoop last_ns ticks).2 = .code 0 →
      ∃ pre, (runLoop last_ns ticks).1 = pre ++ [.release, .closeChip] ∧
        Action.release ∉ pre ∧ Action.closeChip ∉ pre) ∧
    ((inputSimpleLoop old pticks).2 = .code 0 →
      ∃ pre, (inputSimpleLoop old pticks).1 = pre ++ [.release, .closeChip] ∧
        SimpleAction.release ∉ pre ∧ SimpleAction.closeChip ∉ pre) ∧
    ((outputSimpleMain m).count .release = 1 ∧
      (outputSimpleMain m).count .closeChip = 1 ∧
      ∃ pre, outputSimpleMain m = pre ++ [.release, .closeChip] ∧
        Out2Action.release ∉ pre ∧ Out2Action.closeChip ∉ pre) ∧
    (output1Main n = [.openChip, .requestLines, .closeChip] ++
        (output1Toggle n false ++ [.setValue false]) ++ [.release] ∧
      (output1Main n).count .closeChip = 1 ∧
      (output1Main n).count .release = 1) := by
  refine ⟨?_, ?_, ?_, ?_⟩
  · intro hc
    rcases runLoop_shape ticks last_ns with ⟨_, pre, hpre, hrep⟩ | ⟨h2, _⟩
    · refine ⟨pre, hpre, ?_, ?_⟩
      · intro hmem
        have h := hrep _ hmem
        simp [isReport] at h
      · intro hmem
        have h := hrep _ hmem
        simp [isReport] at h
    · exact absurd (h2.symm.trans hc) (by simp)
  · intro hc
    rcases inputSimpleLoop_shape pticks old with ⟨_, pre, hpre, hrep⟩ | ⟨h2, _⟩
    · refine ⟨pre, hpre, ?_, ?_⟩
      · intro hmem
        have h := hrep _ hmem
        simp [isSimpleReport] at h
      · intro hmem
        have h := hrep _ hmem
        simp [isSimpleReport] at h
    · exact absurd (h2.symm.trans hc) (by simp)
  · have hpre : ∀ a ∈ [Out2Action.openChip, Out2Action.requestLines] ++
        (outputSimpleToggle m 0 ++ [Out2Action.setValues false false]),
        a = Out2Action.openChip ∨ a = Out2Action.requestLines ∨
          ∃ v w, a = Out2Action.setValues v w := by
      intro a ha
      rcases List.mem_append.mp ha with ha | ha
      · simp at ha
        rcases ha with rfl | rfl
        · exact Or.inl rfl
        · exact Or.inr (Or.inl rfl)
      · rcases List.mem_append.mp ha with ha | ha
        · exact Or.inr (Or.inr (outputSimpleToggle_setValues m 0 a ha))
        · simp at ha
          exact Or.inr (Or.inr ⟨false, false, ha⟩)
    have heq : outputSimpleMain m =
        ([Out2Action.openChip, Out2Action.requestLines] ++
          (outputSimpleToggle m 0 ++ [Out2Action.setValues false false])) ++
          [Out2Action.release, Out2Action.closeChip] := by
      simp [outputSimpleMain]
    have hrel : Out2Action.release ∉
        [Out2Action.openChip, Out2Action.requestLines] ++
          (outputSimpleToggle m 0 ++ [Out2Action.setValues false false]) := by
      intro hmem
      rcases hpre _ hmem with h | h | ⟨v, w, h⟩ <;> cases h
    have hcl : Out2Action.closeChip ∉
        [Out2Action.openChip, Out2Action.requestLines] ++
          (outputSimpleToggle m 0 ++ [Out2Action.setValues false false]) := by
      intro hmem
      rcases hpre _ hmem with h | h | ⟨v, w, h⟩ <;> cases h
    refine ⟨?_, ?_, _, heq, hrel, hcl⟩
    · rw [heq, List.count_append, List.count_eq_zero.mpr hrel]
      decide
    · rw [heq, List.count_append, List.count_eq_zero.mpr hcl]
      decide
  · have hmid : ∀ a ∈ output1Toggle n false ++ [OutAction.setValue false],
        ∃ v, a = OutAction.setValue v := by
      intro a ha
      rcases List.mem_append.mp ha with ha | ha
      · exact output1Toggle_setValue n false a ha
      · simp at ha
        exact ⟨false, ha⟩
    have heq : output1Main n = [OutAction.openChip, .requestLines, .closeChip] ++
        (output1Toggle n false ++ [OutAction.setValue false]) ++ [OutAction.release] := by
      simp [output1Main]
    have hclmid : OutAction.closeChip ∉
        output1Toggle n false ++ [OutAction.setValue false] := by
      intro hmem
      rcases hmid _ hmem with ⟨v, hv⟩
      cases hv
    have hrelmid : OutAction.release ∉
        output1Toggle n false ++ [OutAction.setValue false] := by
      intro hmem
      rcases hmid _ hmem with ⟨v, hv⟩
      cases hv
    refine ⟨heq, ?_, ?_⟩
    · rw [heq, List.count_append, List.count_append,
        List.count_eq_zero.mpr hclmid]
      decide
    · rw [heq, List.count_append, List.count_append,
        List.count_eq_zero.mpr hrelmid]
      decide

/-- Witness for C5: concrete instances — a normally-exiting
`input_events` trace, `output_simple` with two counter iterations, and
`output1_simple` with two toggle iterations. -/
theorem C5_release_close_order_witness :
    (∃ pre, (runLoop 0 [⟨true, .ready, []⟩]).1 =
        pre ++ [.release, .closeChip] ∧
      Action.release ∉ pre ∧ Action.closeChip ∉ pre) ∧
    (outputSimpleMain 2).count .release = 1 ∧
    (output1Main 2).count .closeChip = 1 :=
  ⟨(C5_release_close_order 0 [⟨true, .ready, []⟩] [] [] 2 2).1 (by decide),
   ((C5_release_close_order 0 [⟨true, .ready, []⟩] [] [] 2 2).2.2.1).1,
   ((C5_release_close_order 0 [⟨true, .ready, []⟩] [] [] 2 2).2.2.2).2.1⟩

/-- C6: a batch read never returns more than the `max_events` capacity
(32); when the read yields at least one event the loop emits exactly one
record per read event (and only those) before the separator; when it
yields none, `assert(num_events > 0)` aborts — so every read processed by
the loop satisfies `0 < count ≤ max_events`. -/
theorem C6_read_bounded (last_ns : Nat) (pending : List EdgeEvent)
    (ts : List LoopTick) :
    (readEdgeEvents pending max_events).length ≤ max_events ∧
    (0 < (readEdgeEvents pending max_events).length →
      runLoop last_ns (⟨false, .ready, pending⟩ :: ts) =
        ((reportBatch last_ns (readEdgeEvents pending max_events)).1.map
            Action.line ++ Action.sep ::
            (runLoop (reportBatch last_ns
              (readEdgeEvents pending max_events)).2 ts).1,
         (runLoop (reportBatch last_ns
            (readEdgeEvents pending max_events)).2 ts).2) ∧
      (reportBatch last_ns (readEdgeEvents pending max_events)).1.length =
        (readEdgeEvents pending max_events).length) ∧
    ((readEdgeEvents pending max_events).length = 0 →
      runLoop last_ns (⟨false, .ready, pending⟩ :: ts) = ([], .aborted)) := by
  refine ⟨readEdgeEvents_length_le pending max_events, ?_, ?_⟩
  · intro h
    exact ⟨by simp [runLoop, h], reportBatch_length _ _⟩
  · intro h
    simp [runLoop, h]

/-- Witness for C6: a single pending event is read whole and reported
once. -/
theorem C6_read_bounded_witness :
    runLoop 0 [⟨false, .ready, [⟨1, 1, 23, true, 1000⟩]⟩] =
      ((reportBatch 0 (readEdgeEvents [⟨1, 1, 23, true, 1000⟩] max_events)).1.map
          Action.line ++ Action.sep ::
          (runLoop (reportBatch 0
            (readEdgeEvents [⟨1, 1, 23, true, 1000⟩] max_events)).2 []).1,
       (runLoop (reportBatch 0
          (readEdgeEvents [⟨1, 1, 23, true, 1000⟩] max_events)).2 []).2) :=
  ((C6_read_bounded 0 [⟨1, 1, 23, true, 1000⟩] []).2.1 (by decide)).1

/-- C7: when shutdown is triggered by the interrupt notification — either
the `quitting` flag is observed set at the loop head, or the blocked wait
is interrupted (EINTR) — the process performs the Draining sequence
(release then close) and returns the success status 0. -/
theorem C7_interrupt_success_exit (last_ns : Nat) (t : LoopTick)
    (ts : List LoopTick) (h : t.quitting = true ∨ t.wait = .eintr) :
    runLoop last_ns (t :: ts) = ([.release, .closeChip], .code 0) := by
  rcases h with h | h
  · simp [runLoop, h]
  · by_cases hq : t.quitting = true
    · simp [runLoop, hq]
    · simp [runLoop, hq, h]

/-- Witness for C7: the flag observed set at the loop head drains and
exits 0. -/
theorem C7_interrupt_success_exit_witness :
    runLoop 3 [⟨true, .ready, [⟨1, 1, 23, true, 5⟩]⟩] =
      ([.release, .closeChip], .code 0) :=
  C7_interrupt_success_exit 3 ⟨true, .ready, [⟨1, 1, 23, true, 5⟩]⟩ []
    (Or.inl rfl)

/-- C10: in the startup sequence of `input_events.cpp`, the SIGINT handler
is installed exactly once, strictly after the configuration step, the chip
open and the line request, and immediately before the monitoring loop is
entered; consequently a SIGINT delivered at any point up to and including
the installation step finds the handler not yet installed, so the
`quitting` flag is still false and cannot trigger a graceful Draining
exit during the Configuring or Requesting phases. -/
theorem C10_handler_installed_last :
    inputEventsStartup.count .installSigHandler = 1 ∧
    inputEventsStartup.findIdx (· == StartupStep.addLineSettings) <
      inputEventsStartup.findIdx (· == StartupStep.installSigHandler) ∧
    inputEventsStartup.findIdx (· == StartupStep.openChip) <
      inputEventsStartup.findIdx (· == StartupStep.installSigHandler) ∧
    inputEventsStartup.findIdx (· == StartupStep.requestLines) <
      inputEventsStartup.findIdx (· == StartupStep.installSigHandler) ∧
    inputEventsStartup.findIdx (· == StartupStep.installSigHandler) + 1 =
      inputEventsStartup.findIdx (· == StartupStep.enterLoop) ∧
    ((List.range (inputEventsStartup.findIdx
        (· == StartupStep.installSigHandler) + 1)).all
      (fun i => !quittingAfterSigAt i)) = true := by
  decide

end GpiodExamples
